import Mathlib

/-!
# Verification of the career-monitor change-detection logic

Shallow embedding of `src/career_monitor.py`: the diff engine
(`compare_top_jobs`), the snapshot-store load functions, the
notification decision in `main`, and the subject-line policy of
`send_email_alert`.  File-system and network effects are modelled by
explicit parameters (file existence, read results, per-source
extraction results); everything else is translated directly from the
Python source.
-/

/-- A change record produced by `compare_top_jobs`: the Python dicts
`{'action': 'new'/'removed'/'moved', ...}` become a tagged variant. -/
inductive Change where
  | new (job_title : String) (position : Nat)
  | removed (job_title : String) (position : Nat)
  | moved (job_title : String) (old_position new_position : Nat)
deriving DecidableEq, Repr

/-- Python's `list.index(s)`: index of the first occurrence of `s`,
`none` when absent (Python raises `ValueError` there). -/
def pyIndex (l : List String) (s : String) : Option Nat :=
  match l with
  | [] => none
  | x :: xs => if x = s then some 0 else (pyIndex xs s).map (· + 1)

/-- First-run branch of `compare_top_jobs` (previous list empty):
`for job in current_jobs: append new(job, current_jobs.index(job)+1)`.
`current_jobs` is the full list being indexed, the explicit argument is
the remaining iteration suffix. -/
def firstRunLoop (current_jobs : List String) : List String → Option (List Change)
  | [] => some []
  | job :: rest =>
    match pyIndex current_jobs job with
    | none => none
    | some i => (firstRunLoop current_jobs rest).map (fun cs => Change.new job (i + 1) :: cs)

/-- "Check for new jobs" loop: `for i, job in enumerate(current_jobs): if
job not in previous_jobs: append new(job, i+1)`.  `i` is the enumeration
counter. -/
def newLoop (previous_jobs : List String) (i : Nat) : List String → List Change
  | [] => []
  | job :: rest =>
    if job ∈ previous_jobs then newLoop previous_jobs (i + 1) rest
    else Change.new job (i + 1) :: newLoop previous_jobs (i + 1) rest

/-- "Check for removed jobs" loop: `for job in previous_jobs: if job not
in current_jobs: append removed(job, previous_jobs.index(job)+1)`. -/
def removedLoop (current_jobs previous_jobs : List String) : List String → Option (List Change)
  | [] => some []
  | job :: rest =>
    if job ∈ current_jobs then removedLoop current_jobs previous_jobs rest
    else
      match pyIndex previous_jobs job with
      | none => none
      | some i =>
        (removedLoop current_jobs previous_jobs rest).map
          (fun cs => Change.removed job (i + 1) :: cs)

/-- "Check for position changes" loop: `for i, job in
enumerate(current_jobs): if job in previous_jobs:` compare
`previous_jobs.index(job)+1` with `i+1`, appending a `moved` record
when they differ. -/
def movedLoop (previous_jobs : List String) (i : Nat) : List String → Option (List Change)
  | [] => some []
  | job :: rest =>
    if job ∈ previous_jobs then
      match pyIndex previous_jobs job with
      | none => none
      | some oldIdx =>
        if oldIdx + 1 ≠ i + 1 then
          (movedLoop previous_jobs (i + 1) rest).map
            (fun cs => Change.moved job (oldIdx + 1) (i + 1) :: cs)
        else movedLoop previous_jobs (i + 1) rest
    else movedLoop previous_jobs (i + 1) rest

/-- `compare_top_jobs(current_jobs, previous_jobs, source_name)` with the
internal `list.index` calls made explicit: a failed `index` (Python
`ValueError`) propagates as `none`.  `if not previous_jobs` is the
Python emptiness test; otherwise the `changes` list accumulates new,
then removed, then moved records, in loop order. -/
def compare_top_jobs_run (current_jobs previous_jobs : List String) (source_name : String) :
    Option (List Change) :=
  if previous_jobs.isEmpty then
    firstRunLoop current_jobs current_jobs
  else
    match removedLoop current_jobs previous_jobs previous_jobs with
    | none => none
    | some rems =>
      match movedLoop previous_jobs 0 current_jobs with
      | none => none
      | some movs => some (newLoop previous_jobs 0 current_jobs ++ rems ++ movs)

/-- `compare_top_jobs` as the total function it is in practice (its
`index` calls never fail; see `compare_top_jobs_run_isSome`). -/
def compare_top_jobs (current_jobs previous_jobs : List String) (source_name : String) :
    List Change :=
  (compare_top_jobs_run current_jobs previous_jobs source_name).getD []

/-- The per-source record stored in `main`'s `changes` / `increases`
dicts: `{'name': ..., 'url': ..., 'previous': ..., 'current': ...}`. -/
structure ChangeEntry where
  name : String
  url : String
  previous : Nat
  current : Nat
deriving DecidableEq, Repr

/-- One monitored source as `main` sees it in a run: its configuration
(`key`, `name`, `url` from `TARGET_URLS`) together with the outcome of
the external effects for this source — whether navigation/screenshot
raised (the only throwing statements before any state is recorded), the
count extraction result (`none` = `extract_job_count` returned `None`),
and the extracted top-job titles. -/
structure SourceInput where
  key : String
  name : String
  url : String
  gotoFails : Bool
  extractedCount : Option Nat
  extractedJobs : List String
deriving DecidableEq, Repr

/-- The accumulator state of `main`'s monitoring loop: the dicts
`current_counts`, `current_top_jobs`, `changes`, `increases`,
`job_changes`, each modelled as an insertion-ordered association list. -/
structure RunState where
  current_counts : List (String × Nat)
  current_top_jobs : List (String × List String)
  changes : List (String × ChangeEntry)
  increases : List (String × ChangeEntry)
  job_changes : List (String × List Change)
deriving DecidableEq, Repr

/-- The loop body of `main` for one source (the `try:` block of the
`for source_key, config in TARGET_URLS.items()` loop).  An exception
during navigation/screenshot hits the `except ... continue` and leaves
all dicts untouched; otherwise a `None` count is replaced by `0`, the
dicts are updated, and `changes`/`increases` are filled from the
comparison with the stored previous count. -/
def processSource (known_counts : List (String × Nat))
    (known_top_jobs : List (String × List String)) (st : RunState) (s : SourceInput) :
    RunState :=
  if s.gotoFails then st
  else
    let current_count := s.extractedCount.getD 0
    let st1 := { st with current_counts := st.current_counts ++ [(s.key, current_count)] }
    let previous_count := known_counts.lookup s.key
    let current_jobs := s.extractedJobs
    let st2 := { st1 with current_top_jobs := st1.current_top_jobs ++ [(s.key, current_jobs)] }
    let previous_jobs := (known_top_jobs.lookup s.key).getD []
    let job_changes_list := compare_top_jobs current_jobs previous_jobs s.name
    let st3 :=
      if job_changes_list.isEmpty then st2
      else { st2 with job_changes := st2.job_changes ++ [(s.name, job_changes_list)] }
    match previous_count with
    | none => st3
    | some p =>
      if current_count ≠ p then
        let entry : ChangeEntry := ⟨s.name, s.url, p, current_count⟩
        let st4 := { st3 with changes := st3.changes ++ [(s.key, entry)] }
        if p < current_count then
          { st4 with increases := st4.increases ++ [(s.key, entry)] }
        else st4
      else st3

/-- The observable tail of a run of `main`: the attempted call to
`send_email_alert` (made iff `increases` is non-empty) and the
unconditional `save_job_counts` / `save_top_jobs` calls. -/
inductive Event where
  | sendEmail (increases : List (String × ChangeEntry))
  | saveCounts (counts : List (String × Nat))
  | saveTopJobs (top_jobs : List (String × List String))
deriving DecidableEq, Repr

/-- `main`'s monitoring loop followed by its notification decision and
persistence: fold the loop body over the sources, then emit a
`sendEmail` event iff `increases` is truthy, then always emit the two
save events. -/
def mainRun (known_counts : List (String × Nat))
    (known_top_jobs : List (String × List String)) (sources : List SourceInput) :
    List Event :=
  let st := sources.foldl (processSource known_counts known_top_jobs)
    ⟨[], [], [], [], []⟩
  (if st.increases.isEmpty then [] else [Event.sendEmail st.increases])
    ++ [Event.saveCounts st.current_counts, Event.saveTopJobs st.current_top_jobs]

/-- `load_known_job_counts`, with the file system made explicit: whether
`KNOWN_JOBS_FILE` exists, and the outcome of opening/parsing it
(`Except.error` = any exception, caught by the `except` clause). -/
def load_known_job_counts (fileExists : Bool)
    (readResult : Except String (List (String × Nat))) : List (String × Nat) :=
  if fileExists then
    match readResult with
    | Except.ok m => m
    | Except.error _ => []
  else []

/-- `load_known_top_jobs`, with the file system made explicit, exactly
as `load_known_job_counts`. -/
def load_known_top_jobs (fileExists : Bool)
    (readResult : Except String (List (String × List String))) :
    List (String × List String) :=
  if fileExists then
    match readResult with
    | Except.ok m => m
    | Except.error _ => []
  else []

/-- The subject-line computation of `send_email_alert`: filter the
passed `changes` dict to the categories with `current > previous`,
return `False` (here `none`) when none remain, otherwise build the
single-category or aggregate subject.  Config checks, body text and
SMTP transport are not modelled. -/
def send_email_alert_subject (changes : List (String × ChangeEntry)) : Option String :=
  let categories_with_new_jobs := changes.filter (fun kv => kv.2.previous < kv.2.current)
  match categories_with_new_jobs with
  | [] => none
  | (_, v) :: rest =>
    if rest.isEmpty then
      some ("🚨 " ++ v.name ++ ": " ++ toString (v.current - v.previous) ++ " new jobs posted!")
    else
      let total_new_jobs :=
        (categories_with_new_jobs.map (fun kv => kv.2.current - kv.2.previous)).sum
      some ("🚨 " ++ toString categories_with_new_jobs.length ++ " categories: "
        ++ toString total_new_jobs ++ " new jobs posted!")

/-- Per-source contribution to `current_counts` (one entry unless the
source raised before any state was recorded). -/
def cntContrib (s : SourceInput) : List (String × Nat) :=
  if s.gotoFails then [] else [(s.key, s.extractedCount.getD 0)]

/-- Per-source contribution to `current_top_jobs`. -/
def topContrib (s : SourceInput) : List (String × List String) :=
  if s.gotoFails then [] else [(s.key, s.extractedJobs)]

/-- Per-source contribution to the `changes` dict: present iff the
source was processed, had a stored previous count, and the (defaulted)
current count differs from it. -/
def chgContrib (known_counts : List (String × Nat)) (s : SourceInput) :
    List (String × ChangeEntry) :=
  if s.gotoFails then []
  else
    match known_counts.lookup s.key with
    | none => []
    | some p =>
      if s.extractedCount.getD 0 ≠ p then
        [(s.key, ⟨s.name, s.url, p, s.extractedCount.getD 0⟩)]
      else []

/-- Per-source contribution to the `increases` dict: present iff the
source was processed, had a stored previous count, and the (defaulted)
current count strictly exceeds it. -/
def incContrib (known_counts : List (String × Nat)) (s : SourceInput) :
    List (String × ChangeEntry) :=
  if s.gotoFails then []
  else
    match known_counts.lookup s.key with
    | none => []
    | some p =>
      if p < s.extractedCount.getD 0 then
        [(s.key, ⟨s.name, s.url, p, s.extractedCount.getD 0⟩)]
      else []


/-- Per-source contribution to the `job_changes` dict (keyed by the
source's display name, present iff the title comparison is non-empty). -/
def jcContrib (known_top_jobs : List (String × List String)) (s : SourceInput) :
    List (String × List Change) :=
  if s.gotoFails then []
  else
    let jcl := compare_top_jobs s.extractedJobs ((known_top_jobs.lookup s.key).getD []) s.name
    if jcl.isEmpty then [] else [(s.name, jcl)]

theorem pyIndex_some_of_mem {l : List String} {s : String} (h : s ∈ l) :
    ∃ i, pyIndex l s = some i := by
  induction l with
  | nil => cases h
  | cons x xs ih =>
    by_cases hx : x = s
    · exact ⟨0, by simp [pyIndex, hx]⟩
    · rcases ih (by rcases List.mem_cons.mp h with h' | h'; exact absurd h'.symm hx; exact h') with
        ⟨i, hi⟩
      exact ⟨i + 1, by simp [pyIndex, hx, hi]⟩

theorem firstRunLoop_isSome {current_jobs : List String} :
    ∀ {todo : List String}, (∀ j ∈ todo, j ∈ current_jobs) →
      ∃ r, firstRunLoop current_jobs todo = some r := by
  intro todo
  induction todo with
  | nil => exact fun _ => ⟨[], rfl⟩
  | cons job rest ih =>
    intro h
    rcases pyIndex_some_of_mem (h job (List.mem_cons_self _ _)) with ⟨i, hi⟩
    rcases ih (fun j hj => h j (List.mem_cons_of_mem _ hj)) with ⟨r, hr⟩
    exact ⟨Change.new job (i + 1) :: r, by simp [firstRunLoop, hi, hr]⟩

theorem removedLoop_isSome {current_jobs previous_jobs : List String} :
    ∀ {todo : List String}, (∀ j ∈ todo, j ∈ previous_jobs) →
      ∃ r, removedLoop current_jobs previous_jobs todo = some r := by
  intro todo
  induction todo with
  | nil => exact fun _ => ⟨[], rfl⟩
  | cons job rest ih =>
    intro h
    rcases ih (fun j hj => h j (List.mem_cons_of_mem _ hj)) with ⟨r, hr⟩
    by_cases hc : job ∈ current_jobs
    · exact ⟨r, by simp [removedLoop, hc, hr]⟩
    · rcases pyIndex_some_of_mem (h job (List.mem_cons_self _ _)) with ⟨i, hi⟩
      exact ⟨Change.removed job (i + 1) :: r, by simp [removedLoop, hc, hi, hr]⟩

theorem movedLoop_isSome (previous_jobs : List String) :
    ∀ (todo : List String) (i : Nat), ∃ r, movedLoop previous_jobs i todo = some r := by
  intro todo
  induction todo with
  | nil => exact fun _ => ⟨[], rfl⟩
  | cons job rest ih =>
    intro i
    rcases ih (i + 1) with ⟨r, hr⟩
    by_cases hp : job ∈ previous_jobs
    · rcases pyIndex_some_of_mem hp with ⟨oldIdx, hIdx⟩
      by_cases hne : oldIdx + 1 ≠ i + 1
      · exact ⟨Change.moved job (oldIdx + 1) (i + 1) :: r, by
          simp [movedLoop, hp, hIdx, hne, hr]⟩
      · exact ⟨r, by simp [movedLoop, hp, hIdx, hne, hr]⟩
    · exact ⟨r, by simp [movedLoop, hp, hr]⟩

/-- Every `list.index` call inside `compare_top_jobs` succeeds, for all
inputs: the run never fails. -/
theorem compare_top_jobs_run_isSome (current_jobs previous_jobs : List String)
    (source_name : String) :
    ∃ r, compare_top_jobs_run current_jobs previous_jobs source_name = some r := by
  unfold compare_top_jobs_run
  by_cases he : previous_jobs.isEmpty
  · rw [if_pos he]
    exact firstRunLoop_isSome (fun j hj => hj)
  · rw [if_neg he]
    rcases @removedLoop_isSome current_jobs previous_jobs previous_jobs
        (fun j hj => hj) with ⟨rems, hrems⟩
    rcases movedLoop_isSome previous_jobs current_jobs 0 with ⟨movs, hmovs⟩
    exact ⟨_, by rw [hrems, hmovs]⟩

theorem processSource_eq (kc : List (String × Nat)) (kt : List (String × List String))
    (st : RunState) (s : SourceInput) :
    processSource kc kt st s = ⟨st.current_counts ++ cntContrib s,
      st.current_top_jobs ++ topContrib s, st.changes ++ chgContrib kc s,
      st.increases ++ incContrib kc s, st.job_changes ++ jcContrib kt s⟩ := by
  by_cases hg : s.gotoFails
  · simp [processSource, cntContrib, topContrib, chgContrib, incContrib, jcContrib, hg]
  · cases hkc : kc.lookup s.key with
    | none =>
      by_cases hj : (compare_top_jobs s.extractedJobs ((kt.lookup s.key).getD []) s.name).isEmpty <;>
        simp [processSource, cntContrib, topContrib, chgContrib, incContrib, jcContrib, hg, hj, hkc]
    | some p =>
      by_cases hj : (compare_top_jobs s.extractedJobs ((kt.lookup s.key).getD []) s.name).isEmpty <;>
      by_cases hne : s.extractedCount.getD 0 = p <;>
      by_cases hlt : p < s.extractedCount.getD 0 <;>
        simp [processSource, cntContrib, topContrib, chgContrib, incContrib, jcContrib,
          hg, hj, hkc, hne, hlt]

theorem foldl_processSource (kc : List (String × Nat)) (kt : List (String × List String)) :
    ∀ (srcs : List SourceInput) (st : RunState),
      srcs.foldl (processSource kc kt) st =
        ⟨st.current_counts ++ srcs.flatMap cntContrib,
         st.current_top_jobs ++ srcs.flatMap topContrib,
         st.changes ++ srcs.flatMap (chgContrib kc),
         st.increases ++ srcs.flatMap (incContrib kc),
         st.job_changes ++ srcs.flatMap (jcContrib kt)⟩ := by
  intro srcs
  induction srcs with
  | nil => intro st; simp
  | cons s rest ih =>
    intro st
    simp only [List.foldl_cons, processSource_eq, ih, List.flatMap_cons, List.append_assoc]

theorem incContrib_ne_nil_iff (kc : List (String × Nat)) (s : SourceInput) :
    incContrib kc s ≠ [] ↔
      s.gotoFails = false ∧ ∃ p, kc.lookup s.key = some p ∧ p < s.extractedCount.getD 0 := by
  unfold incContrib
  by_cases hg : s.gotoFails
  · simp [hg]
  · cases hkc : kc.lookup s.key with
    | none => simp [hg, hkc]
    | some p =>
      by_cases hlt : p < s.extractedCount.getD 0 <;> simp [hg, hkc, hlt]

/-- Claim C2: `main` attempts an email alert iff at least one processed
source has a stored previous count strictly below its (defaulted)
current count; decreases, unchanged counts, first observations and
title-list changes never trigger one. -/
theorem mainRun_sendEmail_iff (kc : List (String × Nat)) (kt : List (String × List String))
    (srcs : List SourceInput) :
    (∃ incs, Event.sendEmail incs ∈ mainRun kc kt srcs) ↔
      ∃ s ∈ srcs, s.gotoFails = false ∧
        ∃ p, kc.lookup s.key = some p ∧ p < s.extractedCount.getD 0 := by
  unfold mainRun
  rw [foldl_processSource]
  simp only [List.nil_append]
  by_cases hni : (srcs.flatMap (incContrib kc)).isEmpty
  · rw [if_pos hni]
    simp only [List.isEmpty_iff, List.flatMap_eq_nil_iff] at hni
    constructor
    · rintro ⟨incs, hmem⟩
      simp at hmem
    · rintro ⟨s, hs, hcond⟩
      exact absurd (hni s hs) ((incContrib_ne_nil_iff kc s).mpr hcond)
  · rw [if_neg hni]
    simp only [List.isEmpty_iff, List.flatMap_eq_nil_iff] at hni
    push_neg at hni
    rcases hni with ⟨s, hs, hne⟩
    constructor
    · intro _
      exact ⟨s, hs, (incContrib_ne_nil_iff kc s).mp hne⟩
    · intro _
      exact ⟨srcs.flatMap (incContrib kc), by simp⟩

theorem pyIndex_eq_indexOf {l : List String} {s : String} (h : s ∈ l) :
    pyIndex l s = some (l.indexOf s) := by
  induction l with
  | nil => cases h
  | cons x xs ih =>
    by_cases hx : x = s
    · subst hx
      simp [pyIndex, List.indexOf_cons_self]
    · have hmem : s ∈ xs := by
        rcases List.mem_cons.mp h with h' | h'
        · exact absurd h'.symm hx
        · exact h'
      simp [pyIndex, hx, ih hmem, List.indexOf_cons_ne _ hx]

theorem pyIndex_get_of_nodup {l : List String} (hl : l.Nodup) :
    ∀ (i : Nat) (h : i < l.length), pyIndex l l[i] = some i := by
  induction l with
  | nil => intro i h; cases h
  | cons x xs ih =>
    intro i h
    cases i with
    | zero => simp [pyIndex]
    | succ i =>
      have h' : i < xs.length := Nat.lt_of_succ_lt_succ h
      have hx : x ∉ xs := (List.nodup_cons.mp hl).1
      have hne : x ≠ xs[i] := by
        intro heq
        exact hx (heq ▸ List.getElem_mem h')
      simp [pyIndex, hne, ih (List.nodup_cons.mp hl).2 i h']

theorem firstRunLoop_map {current_jobs : List String} :
    ∀ {todo : List String}, (∀ j ∈ todo, j ∈ current_jobs) →
      firstRunLoop current_jobs todo =
        some (todo.map (fun job => Change.new job (current_jobs.indexOf job + 1))) := by
  intro todo
  induction todo with
  | nil => exact fun _ => rfl
  | cons job rest ih =>
    intro h
    have h1 := pyIndex_eq_indexOf (h job (List.mem_cons_self _ _))
    have h2 := ih (fun j hj => h j (List.mem_cons_of_mem _ hj))
    simp [firstRunLoop, h1, h2]

theorem newLoop_nil_of_all_mem {previous_jobs : List String} :
    ∀ {todo : List String}, (∀ j ∈ todo, j ∈ previous_jobs) →
      ∀ i, newLoop previous_jobs i todo = [] := by
  intro todo
  induction todo with
  | nil => exact fun _ _ => rfl
  | cons job rest ih =>
    intro h i
    simp [newLoop, h job (List.mem_cons_self _ _),
      ih (fun j hj => h j (List.mem_cons_of_mem _ hj)) (i + 1)]

theorem removedLoop_nil_of_all_mem {current_jobs previous_jobs : List String} :
    ∀ {todo : List String}, (∀ j ∈ todo, j ∈ current_jobs) →
      removedLoop current_jobs previous_jobs todo = some [] := by
  intro todo
  induction todo with
  | nil => exact fun _ => rfl
  | cons job rest ih =>
    intro h
    simp [removedLoop, h job (List.mem_cons_self _ _),
      ih (fun j hj => h j (List.mem_cons_of_mem _ hj))]

theorem movedLoop_drop_self {l : List String} (hl : l.Nodup) :
    ∀ (rest : List String) (i : Nat), rest = l.drop i → movedLoop l i rest = some [] := by
  intro rest
  induction rest with
  | nil => intro i _; rfl
  | cons job rest' ih =>
    intro i hdrop
    have hi : i < l.length := by
      by_contra hge
      rw [List.drop_eq_nil_of_le (Nat.le_of_not_lt hge)] at hdrop
      cases hdrop
    rw [List.drop_eq_getElem_cons hi] at hdrop
    have hjob : job = l[i] := (List.cons_eq_cons.mp hdrop).1
    have hrest : rest' = l.drop (i + 1) := (List.cons_eq_cons.mp hdrop).2
    have hmem : job ∈ l := by rw [hjob]; exact List.getElem_mem hi
    have hidx : pyIndex l job = some i := by rw [hjob]; exact pyIndex_get_of_nodup hl i hi
    simp [movedLoop, hmem, hidx, ih (i + 1) hrest]

theorem newLoop_mem {previous_jobs : List String} :
    ∀ (todo : List String) (i0 i : Nat) (h : i < todo.length),
      todo[i] ∉ previous_jobs →
        Change.new todo[i] (i0 + i + 1) ∈ newLoop previous_jobs i0 todo := by
  intro todo
  induction todo with
  | nil => intro i0 i h; cases h
  | cons job rest ih =>
    intro i0 i h hnm
    cases i with
    | zero =>
      simp only [List.getElem_cons_zero] at hnm ⊢
      simp [newLoop, hnm]
    | succ i =>
      have h' : i < rest.length := Nat.lt_of_succ_lt_succ h
      simp only [List.getElem_cons_succ] at hnm ⊢
      have hrec := ih (i0 + 1) i h' hnm
      have harith : i0 + 1 + i + 1 = i0 + (i + 1) + 1 := by omega
      rw [harith] at hrec
      by_cases hj : job ∈ previous_jobs <;> simp [newLoop, hj, hrec]

theorem removedLoop_mem {current_jobs previous_jobs : List String} {job : String}
    (hjp : job ∈ previous_jobs) (hjc : job ∉ current_jobs) :
    ∀ (todo : List String) (r : List Change), job ∈ todo →
      removedLoop current_jobs previous_jobs todo = some r →
        Change.removed job (previous_jobs.indexOf job + 1) ∈ r := by
  intro todo
  induction todo with
  | nil => intro r hmem; cases hmem
  | cons j rest ih =>
    intro r hmem hrun
    by_cases hjj : j = job
    · subst hjj
      rw [removedLoop, if_neg hjc, pyIndex_eq_indexOf hjp] at hrun
      rcases Option.map_eq_some'.mp hrun with ⟨r', hr', hrr⟩
      subst hrr
      exact List.mem_cons_self _ _
    · have hmem' : job ∈ rest := by
        rcases List.mem_cons.mp hmem with h' | h'
        · exact absurd h'.symm hjj
        · exact h'
      rw [removedLoop] at hrun
      by_cases hc : j ∈ current_jobs
      · rw [if_pos hc] at hrun
        exact ih r hmem' hrun
      · rw [if_neg hc] at hrun
        cases hpi : pyIndex previous_jobs j with
        | none => rw [hpi] at hrun; cases hrun
        | some k =>
          rw [hpi] at hrun
          rcases Option.map_eq_some'.mp hrun with ⟨r', hr', hrr⟩
          subst hrr
          exact List.mem_cons_of_mem _ (ih r' hmem' hr')

/-- Claim C1: for current titles `["T4","T1","T2"]` and previous titles
`["T1","T2","T3"]`, `compare_top_jobs` returns exactly `New(T4,1)`,
`Moved(T1,1,2)`, `Moved(T2,2,3)` and `Removed(T3,3)`, up to order. -/
theorem compare_top_jobs_end_to_end :
    (compare_top_jobs ["T4", "T1", "T2"] ["T1", "T2", "T3"] "S").Perm
      [Change.new "T4" 1, Change.moved "T1" 1 2, Change.moved "T2" 2 3,
        Change.removed "T3" 3] := by
  decide

/-- Claim C3, counterexample: with duplicate titles the first-run branch
gives every occurrence the position of the first occurrence, so
`["A","A"]` does not yield positions 1 and 2. -/
theorem first_run_duplicate_counterexample :
    compare_top_jobs ["A", "A"] [] "S" = [Change.new "A" 1, Change.new "A" 1] ∧
    ¬ (compare_top_jobs ["A", "A"] [] "S").Perm
        [Change.new "A" 1, Change.new "A" 2] := by
  decide

/-- Claim C3, amended: when the previous list is empty, every entry of the
current list yields a `New` record whose position is 1 plus the index of
the first occurrence of that entry's title in the current list (for
duplicate-free lists this is the entry's own 1-based position). -/
theorem first_run_all_new_first_occurrence (current_jobs : List String)
    (source_name : String) :
    compare_top_jobs current_jobs [] source_name =
      current_jobs.map (fun job => Change.new job (current_jobs.indexOf job + 1)) := by
  unfold compare_top_jobs compare_top_jobs_run
  rw [@firstRunLoop_map current_jobs current_jobs (fun j hj => hj)]
  rfl

/-- Claim C4, counterexample: titles are compared by exact string equality
with no trimming, so a title differing from a previous one only by
leading whitespace is reported as `New` and the previous as `Removed`. -/
theorem whitespace_title_counterexample :
    Change.new " A" 1 ∈ compare_top_jobs [" A"] ["A"] "S" ∧
    Change.removed "A" 1 ∈ compare_top_jobs [" A"] ["A"] "S" := by
  decide

/-- Claim C4, amended: matching is exact string equality with no trimming:
any current entry not literally present in the non-empty previous list
produces a `New` record at its 1-based position, and any previous title
not literally present in the current list produces a `Removed` record
at 1 plus its first-occurrence index in the previous list. -/
theorem compare_top_jobs_exact_match (current_jobs previous_jobs : List String)
    (source_name : String) (hprev : previous_jobs ≠ []) :
    (∀ (i : Nat) (h : i < current_jobs.length), current_jobs[i] ∉ previous_jobs →
      Change.new current_jobs[i] (i + 1) ∈
        compare_top_jobs current_jobs previous_jobs source_name) ∧
    (∀ job ∈ previous_jobs, job ∉ current_jobs →
      Change.removed job (previous_jobs.indexOf job + 1) ∈
        compare_top_jobs current_jobs previous_jobs source_name) := by
  have hne : previous_jobs.isEmpty = false := by
    cases previous_jobs with
    | nil => exact absurd rfl hprev
    | cons a l => rfl
  rcases @removedLoop_isSome current_jobs previous_jobs previous_jobs
      (fun j hj => hj) with ⟨rems, hrems⟩
  rcases movedLoop_isSome previous_jobs current_jobs 0 with ⟨movs, hmovs⟩
  have hrun : compare_top_jobs current_jobs previous_jobs source_name =
      newLoop previous_jobs 0 current_jobs ++ rems ++ movs := by
    unfold compare_top_jobs compare_top_jobs_run
    rw [hne]
    simp only [Bool.false_eq_true, if_false, hrems, hmovs, Option.getD_some]
  constructor
  · intro i h hnm
    rw [hrun]
    refine List.mem_append_left _ (List.mem_append_left _ ?_)
    have := newLoop_mem current_jobs 0 i h hnm
    simpa using this
  · intro job hjp hjc
    rw [hrun]
    exact List.mem_append_left _
      (List.mem_append_right _ (removedLoop_mem hjp hjc previous_jobs rems hjp hrems))

/-- Witness for `compare_top_jobs_exact_match` at the whitespace pair of
the claim: current `[" A"]` versus previous `["A"]`. -/
theorem compare_top_jobs_exact_match_witness :
    Change.new " A" 1 ∈ compare_top_jobs [" A"] ["A"] "W" ∧
    Change.removed "A" 1 ∈ compare_top_jobs [" A"] ["A"] "W" := by
  have h := compare_top_jobs_exact_match [" A"] ["A"] "W" (by decide)
  refine ⟨?_, ?_⟩
  · have := h.1 0 (by decide) (by decide)
    simpa using this
  · have := h.2 "A" (by decide) (by decide)
    simpa using this

/-- Claim C9: `compare_top_jobs` is total: for every pair of title lists the
run, with all internal `index` calls made explicit, returns a result
(every `index` is guarded by a membership test), and `compare_top_jobs`
returns that list of change records. -/
theorem compare_top_jobs_never_raises (current_jobs previous_jobs : List String)
    (source_name : String) :
    ∃ r, compare_top_jobs_run current_jobs previous_jobs source_name = some r ∧
      compare_top_jobs current_jobs previous_jobs source_name = r := by
  rcases compare_top_jobs_run_isSome current_jobs previous_jobs source_name with ⟨r, hr⟩
  exact ⟨r, hr, by simp [compare_top_jobs, hr]⟩

/-- Claim C10: comparing a duplicate-free title list with itself yields no
change records. -/
theorem compare_top_jobs_self (l : List String) (source_name : String) (h : l.Nodup) :
    compare_top_jobs l l source_name = [] := by
  cases l with
  | nil => rfl
  | cons x xs =>
    unfold compare_top_jobs compare_top_jobs_run
    rw [@removedLoop_nil_of_all_mem (x :: xs) (x :: xs) (x :: xs) (fun j hj => hj),
      movedLoop_drop_self h (x :: xs) 0 rfl,
      @newLoop_nil_of_all_mem (x :: xs) (x :: xs) (fun j hj => hj) 0]
    rfl

/-- Witness for `compare_top_jobs_self` at the duplicate-free list
`["A","B"]`. -/
theorem compare_top_jobs_self_witness :
    (["A", "B"] : List String).Nodup ∧ compare_top_jobs ["A", "B"] ["A", "B"] "W" = [] :=
  ⟨by decide, compare_top_jobs_self ["A", "B"] "W" (by decide)⟩

/-- Claim C5: when count extraction fails (`None` current count) for a
processed source with a positive stored previous count, the source is
recorded in `changes` as a decrease to 0 and contributes nothing to
`increases`, so it does not trigger a notification. -/
theorem extraction_failure_treated_as_zero (known_counts : List (String × Nat))
    (known_top_jobs : List (String × List String)) (st : RunState) (s : SourceInput)
    (p : Nat) (hfail : s.extractedCount = none) (hg : s.gotoFails = false)
    (hp : known_counts.lookup s.key = some p) (hpos : 0 < p) :
    (processSource known_counts known_top_jobs st s).increases = st.increases ∧
      (processSource known_counts known_top_jobs st s).changes =
        st.changes ++ [(s.key, ⟨s.name, s.url, p, 0⟩)] := by
  rw [processSource_eq]
  constructor
  · simp [incContrib, hg, hp, hfail]
  · simp [chgContrib, hg, hp, hfail]
    omega

/-- Witness for `extraction_failure_treated_as_zero` at a source whose
extraction failed with stored previous count 3. -/
theorem extraction_failure_treated_as_zero_witness :
    (processSource [("k", 3)] [] ⟨[], [], [], [], []⟩
        ⟨"k", "n", "u", false, none, []⟩).increases = [] ∧
      (processSource [("k", 3)] [] ⟨[], [], [], [], []⟩
          ⟨"k", "n", "u", false, none, []⟩).changes =
        [] ++ [("k", ⟨"n", "u", 3, 0⟩)] :=
  extraction_failure_treated_as_zero [("k", 3)] [] ⟨[], [], [], [], []⟩
    ⟨"k", "n", "u", false, none, []⟩ 3 rfl rfl (by decide) (by decide)

/-- Claim C6: subject-line policy of `send_email_alert`: with exactly one
category whose count increased, the subject names that category and its
delta; with more than one, it gives the number of increasing categories
and the sum of their deltas. -/
theorem send_email_alert_subject_policy (changes : List (String × ChangeEntry)) :
    (∀ k v, changes.filter (fun kv => kv.2.previous < kv.2.current) = [(k, v)] →
      send_email_alert_subject changes =
        some ("🚨 " ++ v.name ++ ": " ++ toString (v.current - v.previous)
          ++ " new jobs posted!")) ∧
    (1 < (changes.filter (fun kv => kv.2.previous < kv.2.current)).length →
      send_email_alert_subject changes =
        some ("🚨 "
          ++ toString (changes.filter (fun kv => kv.2.previous < kv.2.current)).length
          ++ " categories: "
          ++ toString ((changes.filter (fun kv => kv.2.previous < kv.2.current)).map
                (fun kv => kv.2.current - kv.2.previous)).sum
          ++ " new jobs posted!")) := by
  constructor
  · intro k v hf
    unfold send_email_alert_subject
    rw [hf]
    rfl
  · intro hlen
    unfold send_email_alert_subject
    cases hc : changes.filter (fun kv => kv.2.previous < kv.2.current) with
    | nil => simp [hc] at hlen
    | cons a rest =>
      rw [hc] at hlen
      obtain ⟨ak, av⟩ := a
      have hrest : rest.isEmpty = false := by
        cases rest with
        | nil => simp at hlen
        | cons b rest' => rfl
      simp [hrest]

/-- Witness for `send_email_alert_subject_policy`: one increasing
category gives the specific subject, two give the aggregate subject. -/
theorem send_email_alert_subject_policy_witness :
    send_email_alert_subject [("a", ⟨"A", "u", 1, 3⟩)] =
      some ("🚨 " ++ "A" ++ ": " ++ toString (3 - 1 : Nat) ++ " new jobs posted!") ∧
    send_email_alert_subject [("a", ⟨"A", "u", 1, 3⟩), ("b", ⟨"B", "u", 0, 1⟩)] =
      some ("🚨 " ++ toString (2 : Nat) ++ " categories: " ++ toString (3 : Nat)
        ++ " new jobs posted!") := by
  constructor
  · exact (send_email_alert_subject_policy [("a", ⟨"A", "u", 1, 3⟩)]).1 "a"
      ⟨"A", "u", 1, 3⟩ (by decide)
  · have h := (send_email_alert_subject_policy
      [("a", ⟨"A", "u", 1, 3⟩), ("b", ⟨"B", "u", 0, 1⟩)]).2 (by decide)
    simpa using h

/-- Claim C7: loading a persisted snapshot mapping (job counts or top jobs)
returns the empty mapping, rather than raising, whenever the file does
not exist or reading/parsing it fails — exactly the first-ever-run
state. -/
theorem load_missing_or_failed_is_empty :
    (∀ r : Except String (List (String × Nat)), load_known_job_counts false r = []) ∧
    (∀ e : String, load_known_job_counts true (Except.error e) = []) ∧
    (∀ r : Except String (List (String × List String)), load_known_top_jobs false r = []) ∧
    (∀ e : String, load_known_top_jobs true (Except.error e) = []) :=
  ⟨fun _ => rfl, fun _ => rfl, fun _ => rfl, fun _ => rfl⟩

theorem processSource_gotoFails (kc : List (String × Nat))
    (kt : List (String × List String)) (st : RunState) (s : SourceInput)
    (h : s.gotoFails = true) : processSource kc kt st s = st := by
  unfold processSource
  rw [if_pos h]

theorem lookup_eq_none_of_keys {β : Type} (l : List (String × β)) (k : String)
    (h : ∀ kv ∈ l, kv.1 ≠ k) : l.lookup k = none := by
  induction l with
  | nil => rfl
  | cons a rest ih =>
    obtain ⟨ak, av⟩ := a
    have hne : ak ≠ k := h (ak, av) (List.mem_cons_self _ _)
    have hbeq : (k == ak) = false := by
      rw [beq_eq_false_iff_ne]
      exact fun he => hne he.symm
    simp [List.lookup, hbeq, ih (fun kv hkv => h kv (List.mem_cons_of_mem _ hkv))]

/-- Claim C8: a source whose navigation raises is skipped without affecting
the rest of the run; the two save events happen with the accumulated
final snapshots whatever the failures and whether or not an email was
attempted; and when every source sharing the failed source's key also
failed, that key is absent from the saved counts. -/
theorem source_failure_never_aborts (kc : List (String × Nat))
    (kt : List (String × List String)) (pre post : List SourceInput) (s : SourceInput)
    (hfail : s.gotoFails = true)
    (hkey : ∀ t ∈ pre ++ post, t.key = s.key → t.gotoFails = true) :
    mainRun kc kt (pre ++ s :: post) = mainRun kc kt (pre ++ post) ∧
    Event.saveCounts ((pre ++ s :: post).flatMap cntContrib) ∈
      mainRun kc kt (pre ++ s :: post) ∧
    Event.saveTopJobs ((pre ++ s :: post).flatMap topContrib) ∈
      mainRun kc kt (pre ++ s :: post) ∧
    ((pre ++ s :: post).flatMap cntContrib).lookup s.key = none := by
  refine ⟨?_, ?_, ?_, ?_⟩
  · unfold mainRun
    rw [List.foldl_append, List.foldl_cons, processSource_gotoFails kc kt _ s hfail,
      ← List.foldl_append]
  · unfold mainRun
    rw [foldl_processSource]
    simp [List.mem_append]
  · unfold mainRun
    rw [foldl_processSource]
    simp [List.mem_append]
  · apply lookup_eq_none_of_keys
    intro kv hkv
    rcases List.mem_flatMap.mp hkv with ⟨t, ht, hkvt⟩
    by_cases hgt : t.gotoFails
    · simp [cntContrib, hgt] at hkvt
    · simp only [cntContrib, hgt, Bool.false_eq_true, if_false, List.mem_singleton] at hkvt
      subst hkvt
      intro hk
      simp only [List.mem_append, List.mem_cons] at ht
      rcases ht with ht | ht | ht
      · exact hgt (hkey t (List.mem_append_left _ ht) hk)
      · rw [ht] at hgt; exact hgt hfail
      · exact hgt (hkey t (List.mem_append_right _ ht) hk)

/-- Witness for `source_failure_never_aborts`: a run whose only source
fails still saves (empty) snapshots and equals the empty run. -/
theorem source_failure_never_aborts_witness :
    mainRun [] [] ([] ++ (⟨"k", "n", "u", true, none, []⟩ : SourceInput) :: []) =
      mainRun [] [] ([] ++ []) ∧
    Event.saveCounts (([] ++ (⟨"k", "n", "u", true, none, []⟩ : SourceInput) :: []).flatMap
        cntContrib) ∈
      mainRun [] [] ([] ++ (⟨"k", "n", "u", true, none, []⟩ : SourceInput) :: []) ∧
    Event.saveTopJobs (([] ++ (⟨"k", "n", "u", true, none, []⟩ : SourceInput) :: []).flatMap
        topContrib) ∈
      mainRun [] [] ([] ++ (⟨"k", "n", "u", true, none, []⟩ : SourceInput) :: []) ∧
    (([] ++ (⟨"k", "n", "u", true, none, []⟩ : SourceInput) :: []).flatMap
        cntContrib).lookup "k" = none :=
  source_failure_never_aborts [] [] [] [] ⟨"k", "n", "u", true, none, []⟩ rfl
    (fun t ht => absurd ht (List.not_mem_nil t))

/-- Witness for `mainRun_sendEmail_iff`: a single source whose count
rose from 1 to 2 makes the run attempt an email. -/
theorem mainRun_sendEmail_iff_witness :
    ∃ incs, Event.sendEmail incs ∈
      mainRun [("k", 1)] [] [⟨"k", "n", "u", false, some 2, []⟩] :=
  (mainRun_sendEmail_iff [("k", 1)] [] [⟨"k", "n", "u", false, some 2, []⟩]).mpr
    ⟨⟨"k", "n", "u", false, some 2, []⟩, List.mem_singleton_self _, rfl,
      1, by decide, by decide⟩
